import Mathlib

/-!
# Verification of the langstream stream-pipeline core

A shallow embedding of `src/langstream/core/stream.py` (mirrored by
`src/litechain/core/chain.py`): the `StreamOutput` envelope, the `Stream`
and `SingleOutputStream` classes, their wrapping discipline
(`_wrap` / `_output_wrap` / `_reyield`) and the combinators `map`,
`and_then`, `pipe`, `collect`, `join`, `gather`, `on_error`.

Python's asynchronous generators are embedded as finite runs: a list of
the values produced, in production order, together with an optional
terminal error (the exception that ended the iteration, if any).  The
sequential combinators of the source iterate one generator to completion
at a time, so this captures their observable behaviour exactly; the
tee/merge concurrency of `Stream.pipe` is out of scope and only its name
computation is embedded.

Python values crossing the stream boundary are embedded in the dynamic
universe `Val` (strings, `None`, lists, exception objects, and async
generator objects, which is all the claims exercise).
-/

namespace Langstream

/-- Classification of a Python exception object, as far as `except`
clauses in the source can distinguish it.  `exception` covers instances
of `Exception`; `cancelled` models `asyncio.CancelledError`, which since
Python 3.8 derives from `BaseException` directly and is *not* an
instance of `Exception`. -/
inductive PyErrKind where
  | exception
  | cancelled
deriving DecidableEq, Repr

/-- A Python exception object: its place in the exception hierarchy and
its message. -/
structure PyErr where
  kind : PyErrKind
  msg : String
deriving DecidableEq, Repr

/-- Python `isinstance(e, Exception)`: what an `except Exception as e:` clause
catches.  `asyncio.CancelledError` derives from `BaseException` only, so
it is not caught. -/
def isExceptionInstance (e : PyErr) : Bool :=
  match e.kind with
  | .exception => true
  | .cancelled => false

mutual

/-- The dynamic universe of Python values flowing through streams:
strings, `None`, lists, exception objects and async-generator objects
(the payload type of `gather`'s input).  An async generator held as a
*value* is embedded by the finite run it produces when consumed; the
claims only exercise generators that do not themselves raise. -/
inductive Val where
  | vstr : String → Val
  | vnone : Val
  | vlist : List Val → Val
  | verr : PyErr → Val
  | vgen : List WrapItem → Val

/-- The type `Union[StreamOutput[V], V]`: an item of the sequences accepted by
`Stream._wrap`, which distinguishes `StreamOutput` instances from raw
values by `isinstance`.  `out stage data final` inlines the fields of a
`StreamOutput`. -/
inductive WrapItem where
  | raw : Val → WrapItem
  | out : String → Val → Bool → WrapItem

end

/-- Embeds `StreamOutput` (stream.py lines 32-72): the envelope for every value
a stream produces — the producing stream's name, the payload, and
whether the payload is part of the final output. -/
structure StreamOutput where
  stream : String
  data : Val
  final : Bool

/-- View a `StreamOutput` as a `_wrap` input item. -/
def WrapItem.ofOutput (o : StreamOutput) : WrapItem :=
  .out o.stream o.data o.final

/-- The finite run of a Python async generator: the items it yielded, in
order, and the exception (if any) that terminated the iteration. -/
structure GenResult (α : Type) where
  items : List α
  error : Option PyErr

/-- The value returned by a stream's `_call` attribute:
`Union[AsyncGenerator[StreamOutput[U], Any], AsyncGenerator[U, Any], U]`.
A generator of `StreamOutput`s, a generator of raw values, or a mix, is
the `agen` case (items tagged by `WrapItem`); a bare non-generator return
is the `value` case. -/
inductive CallResult where
  | value : Val → CallResult
  | agen : GenResult WrapItem → CallResult

/-- Which `_reyield` a stream object dispatches to: `base` for instances
of `Stream`, `single` for instances of the subclass
`SingleOutputStream`, which overrides `_reyield`. -/
inductive StreamClass where
  | base
  | single
deriving DecidableEq, Repr

/-- A stream object: its runtime class (for method dispatch), its `name`
and its `_call` function. -/
structure Stream where
  cls : StreamClass
  name : String
  call : Val → CallResult

/-- Embeds `Stream._output_wrap` (lines 113-123): a `StreamOutput` keeps its
`stream` and `data`, with `final` overridden when requested; a raw value
is wrapped under the given name (default `self.name`) with `final`
defaulting to `True`. -/
def output_wrap (s : Stream) (value : WrapItem) (final : Option Bool)
    (name : Option String) : StreamOutput :=
  match value with
  | .out st d f => ⟨st, d, final.getD f⟩
  | .raw v => ⟨name.getD s.name, v, final.getD true⟩

/-- Models `as_async_generator(value)` applied in `Stream._wrap` (line 111): a
bare value becomes a one-item generator; an actual generator is consumed
as is. -/
def CallResult.toGen : CallResult → GenResult WrapItem
  | .value v => ⟨[.raw v], none⟩
  | .agen g => g

/-- Embeds `Stream._wrap` (lines 97-111): wrap every item of the sequence with
`_output_wrap`; an exception ending the source ends the wrapped sequence
the same way. -/
def wrap (s : Stream) (g : GenResult WrapItem) (final : Option Bool)
    (name : Option String) : GenResult StreamOutput :=
  ⟨g.items.map (fun v => output_wrap s v final name), g.error⟩

/-- Embeds `Stream.__call__` (lines 93-95): run `_call` and wrap its result
with no `final`/`name` overrides. -/
def streamCall (s : Stream) (input : Val) : GenResult StreamOutput :=
  wrap s (s.call input).toGen none none

/-- Embeds `Stream._reyield` (lines 125-133), unrolled over the items of the
source run: the mutable accumulator `values` grows by `u.data` at each
final item *before* the pair is yielded, so each step records the
accumulator's contents at its own yield point (the list is only ever
appended to, so the snapshot and the aliased mutable list agree at every
observation point). -/
def reyieldSteps (s : Stream) :
    List Val → List StreamOutput → List (List Val × StreamOutput)
  | _, [] => []
  | values, u :: rest =>
    let rewrapped := output_wrap s (.ofOutput u) (some false) none
    let values2 := if u.final then values ++ [u.data] else values
    (values2, rewrapped) :: reyieldSteps s values2 rest

/-- Embeds `SingleOutputStream._reyield` (lines 543-551), unrolled the same
way: instead of a list, only the data of the last final item seen so far
is tracked (`final_value`, initially `None` — embedded as `Val.vnone`,
which is exactly Python's `None`). -/
def reyieldSingleSteps (s : Stream) :
    Val → List StreamOutput → List (Val × StreamOutput)
  | _, [] => []
  | fv, u :: rest =>
    let rewrapped := output_wrap s (.ofOutput u) (some false) none
    let fv2 := if u.final then u.data else fv
    (fv2, rewrapped) :: reyieldSingleSteps s fv2 rest

/-- Dynamic dispatch of `self._reyield` as used by the inherited
methods `Stream.collect` and `Stream.join`: a `Stream` receiver
accumulates a Python list (`vlist`), a `SingleOutputStream` receiver
tracks the last final value (`vnone` when absent). -/
def reyieldDynSteps (s : Stream) (items : List StreamOutput) :
    List (Val × StreamOutput) :=
  match s.cls with
  | .base => (reyieldSteps s [] items).map (fun p => (Val.vlist p.1, p.2))
  | .single => reyieldSingleSteps s .vnone items

/-- The drain-then-tail shape shared by `and_then`, `collect`, `join`,
`pipe` and `gather`: first the re-yield pass over the source; the tail
runs only if the source finished without raising (an exception raised by
the `async for` propagates out of the combinator's generator at once). -/
def afterDrain (pre tail : GenResult StreamOutput) : GenResult StreamOutput :=
  match pre.error with
  | some _ => pre
  | none => ⟨pre.items ++ tail.items, tail.error⟩

/-- Embeds `unwrap` (litechain/utils/_typing.py lines 7-8): `cast(T, val)` — a
no-op at runtime; in particular `unwrap(None)` is `None`. -/
def unwrap (v : Val) : Val := v

/-- A run of `StreamOutput`s viewed as a generator value again (for a
composed stream's `_call` to return, or a stream argument's output to
be re-consumed). -/
def CallResult.ofOutputs (g : GenResult StreamOutput) : CallResult :=
  .agen ⟨g.items.map .ofOutput, g.error⟩

/-- The argument of `and_then`: either a plain function or another
stream (any value carrying a `name` attribute).  Calling a stream
argument runs its `__call__`, producing its wrapped output run. -/
inductive NextArg where
  | func : (Val → CallResult) → NextArg
  | stage : Stream → NextArg

/-- Applying the `and_then` argument to the collected value. -/
def NextArg.apply : NextArg → Val → CallResult
  | .func f, v => f v
  | .stage st, v => .ofOutputs (streamCall st v)

/-- The `hasattr(next, "name")` adoption check of `and_then` (lines
266-268 and 624-626): a stream argument has a `name` attribute and its
name is adopted; a plain function falls back to the default suffix. -/
def NextArg.resolveName : NextArg → String → String
  | .stage st, _ => st.name
  | .func _, default => default

namespace Stream

/-- Embeds the loop of `Stream.map` (lines 171-182), unrolled over the re-yield steps: each
step first re-yields the source item non-final, then, whenever the
accumulator just grew (`len(values) > prev_len_values`), yields
`fn(values[-1])` wrapped final under the `@map` name.  `values[-1]` is
embedded as `getLastD .vnone`; the list is nonempty whenever its length
exceeds the previous length. -/
def mapSteps (s : Stream) (nextName : String) (fn : Val → Val) :
    Nat → List (List Val × StreamOutput) → List StreamOutput
  | _, [] => []
  | prevLen, (values, rewrapped) :: rest =>
    if values.length > prevLen then
      rewrapped :: output_wrap s (.raw (fn (values.getLastD .vnone))) none (some nextName)
        :: mapSteps s nextName fn values.length rest
    else
      rewrapped :: mapSteps s nextName fn prevLen rest

/-- Embeds `Stream.map` (lines 135-182).  Only reachable with a `Stream`-class
receiver (the subclass overrides `map`), so `self._reyield` is the
list-accumulating one. -/
def map (s : Stream) (fn : Val → Val) : Stream :=
  let nextName := s.name ++ "@map"
  ⟨.base, nextName, fun input =>
    let g := streamCall s input
    .ofOutputs ⟨mapSteps s nextName fn 0 (reyieldSteps s [] g.items), g.error⟩⟩

/-- Embeds `Stream.and_then` (lines 219-284): adopt the argument's `name` when
it has one; re-yield the source non-final while aliasing `iter_u` to the
accumulator; after a clean drain, call the argument on the collected
list and re-wrap its outputs under the composed name. -/
def and_then (s : Stream) (nxt : NextArg) : Stream :=
  let nextName := nxt.resolveName (s.name ++ "@and_then")
  ⟨.base, nextName, fun input =>
    let g := streamCall s input
    let steps := reyieldSteps s [] g.items
    let iterU := Val.vlist ((steps.map Prod.fst).getLastD [])
    .ofOutputs (afterDrain ⟨steps.map Prod.snd, g.error⟩
      (wrap s (nxt.apply iterU).toGen none (some nextName)))⟩

/-- The name computed by `Stream.pipe` (lines 334-359):
`next_name = f"{self.name}@pipe"`, with no adoption check at all — the
argument's `name` attribute, when present, is never consulted.  (The
tee/merge runtime of `pipe` is concurrent and embedded only by this name
computation.) -/
def pipeName (s : Stream) : NextArg → String :=
  fun _ => s.name ++ "@pipe"

/-- Embeds `Stream.collect` (lines 361-397): defined on `Stream` and inherited
by `SingleOutputStream`, so `self._reyield` dispatches on the receiver's
class.  `iter_u` starts as `[]` and aliases whatever `_reyield` pairs it
with; after a clean drain the collected value is emitted final under the
`@collect` name.  The result is constructed as a `SingleOutputStream`. -/
def collect (s : Stream) : Stream :=
  let nextName := s.name ++ "@collect"
  ⟨.single, nextName, fun input =>
    let g := streamCall s input
    let steps := reyieldDynSteps s g.items
    let iterU := (steps.map Prod.fst).getLastD (.vlist [])
    .ofOutputs (afterDrain ⟨steps.map Prod.snd, g.error⟩
      ⟨[output_wrap s (.raw iterU) none (some nextName)], none⟩)⟩

/-- The string values of a Python list, as consumed by
`separator.join(iter_u)` in `Stream.join` (line 442); elements that are
not strings would raise `TypeError` in Python and are not modelled. -/
def strParts : Val → List String
  | .vlist l => l.map (fun v => match v with | .vstr t => t | _ => "")
  | _ => []

/-- Python `separator.join(parts)` for a list of strings. -/
def joinSep (separator : String) : List String → String
  | [] => ""
  | [x] => x
  | x :: xs => x ++ separator ++ joinSep separator xs

/-- Embeds `Stream.join` (lines 399-445): inherited by `SingleOutputStream`,
so `self._reyield` dispatches on the receiver's class; after a clean
drain the concatenation of the collected strings is emitted final under
the `@join` name. -/
def join (s : Stream) (separator : String) : Stream :=
  let nextName := s.name ++ "@join"
  ⟨.single, nextName, fun input =>
    let g := streamCall s input
    let steps := reyieldDynSteps s g.items
    let iterU := (steps.map Prod.fst).getLastD (.vlist [])
    .ofOutputs (afterDrain ⟨steps.map Prod.snd, g.error⟩
      ⟨[output_wrap s (.raw (.vstr (joinSep separator (strParts iterU)))) none
        (some nextName)], none⟩)⟩

/-- Embeds `Stream.on_error` (lines 482-533).  The source also computes
`if hasattr(next, "name")` at line 519, but `next` there is the Python
*builtin* (the parameter is named `handler`); the builtin has no `name`
attribute, so the composed name is always the `@on_error` suffix.  A
failure that is an `Exception` instance is caught: the exception object
is first re-emitted as a non-final output of `self`, then the handler's
output is wrapped under the composed name.  Failures outside
`Exception` (e.g. cancellation) propagate unchanged, and the handler is
not called. -/
def on_error (s : Stream) (handler : PyErr → CallResult) : Stream :=
  let nextName := s.name ++ "@on_error"
  ⟨.base, nextName, fun input =>
    let g := streamCall s input
    .ofOutputs (match g.error with
      | none => ⟨g.items, none⟩
      | some e =>
        if isExceptionInstance e then
          let handled := wrap s (handler e).toGen none (some nextName)
          ⟨g.items ++ output_wrap s (.raw (.verr e)) (some false) none
            :: handled.items, handled.error⟩
        else ⟨g.items, some e⟩)⟩

end Stream

namespace SingleOutputStream

/-- Embeds `SingleOutputStream.map` (lines 553-573): re-yield the source
non-final, tracking only the last final value; after a clean drain,
apply `fn` to `unwrap(final_u)` — when no final ever arrived, `final_u`
is still `None` and `fn` receives it as such — and emit the image final
under the `@map` name.  The result is again a `SingleOutputStream`. -/
def map (s : Stream) (fn : Val → Val) : Stream :=
  let nextName := s.name ++ "@map"
  ⟨.single, nextName, fun input =>
    let g := streamCall s input
    let steps := reyieldSingleSteps s .vnone g.items
    let finalU := (steps.map Prod.fst).getLastD .vnone
    .ofOutputs (afterDrain ⟨steps.map Prod.snd, g.error⟩
      ⟨[output_wrap s (.raw (fn (unwrap finalU))) none (some nextName)], none⟩)⟩

/-- Embeds `SingleOutputStream.and_then` (lines 612-642): adopt the argument's
`name` when it has one; after a clean drain pass `unwrap(final_u)` (the
single collected value, `None` when absent) to the argument and re-wrap
its outputs under the composed name.  The result is constructed as a
plain `Stream`. -/
def and_then (s : Stream) (nxt : NextArg) : Stream :=
  let nextName := nxt.resolveName (s.name ++ "@and_then")
  ⟨.base, nextName, fun input =>
    let g := streamCall s input
    let steps := reyieldSingleSteps s .vnone g.items
    let finalU := (steps.map Prod.fst).getLastD .vnone
    .ofOutputs (afterDrain ⟨steps.map Prod.snd, g.error⟩
      (wrap s (nxt.apply (unwrap finalU)).toGen none (some nextName)))⟩

/-- Embeds `SingleOutputStream.pipe` (lines 644-674).  The source computes
`if hasattr(next, "name")` at line 656, but `next` there is the Python
*builtin* (the parameter is named `fn`); the builtin has no `name`
attribute, so the branch never fires and the composed name is always
the `@pipe` suffix.  The piping function receives the one-element
generator `as_async_generator(unwrap(final_u))`, embedded as the
one-element list `[unwrap final_u]`; its outputs are re-wrapped under
the composed name.  The result is constructed as a plain `Stream`. -/
def pipe (s : Stream) (fn : List Val → GenResult WrapItem) : Stream :=
  let nextName := s.name ++ "@pipe"
  ⟨.base, nextName, fun input =>
    let g := streamCall s input
    let steps := reyieldSingleSteps s .vnone g.items
    let finalU := (steps.map Prod.fst).getLastD .vnone
    .ofOutputs (afterDrain ⟨steps.map Prod.snd, g.error⟩
      (wrap s (fn [unwrap finalU]) none (some nextName)))⟩

/-- The name computed by `SingleOutputStream.pipe` for an arbitrary
argument, including one that carries a `name` attribute: because the
`hasattr` check at line 656 inspects the builtin `next` rather than the
parameter `fn`, the argument's name is never adopted. -/
def pipeName (s : Stream) : NextArg → String :=
  fun _ => s.name ++ "@pipe"

/-- The inner loop of `SingleOutputStream.gather` (lines 716-730) over
one consumed generator `vs`: `StreamOutput` items are re-yielded
non-final and their data kept when final; raw items are kept without
being re-yielded.  Returns (yielded outputs, `clean_vs`). -/
def gatherInner (s : Stream) : List WrapItem → List StreamOutput × List Val
  | [] => ([], [])
  | .out st d f :: rest =>
    let p := gatherInner s rest
    (output_wrap s (.out st d f) (some false) none :: p.1,
      if f then d :: p.2 else p.2)
  | .raw x :: rest =>
    let p := gatherInner s rest
    (p.1, x :: p.2)

/-- The elements of `final_u` interpreted as async generators, as
`asyncio.gather(*(consume_async_generator(gen) for gen in final_u))`
consumes them (lines 706-714); a non-generator element would raise
`TypeError` in Python and is not modelled. -/
def asGenList : Val → List (List WrapItem)
  | .vlist l => l.map (fun v => match v with | .vgen g => g | _ => [])
  | _ => []

/-- Lines 703-704: `if final_u is None: final_u = []`. -/
def noneToEmptyList : Val → Val
  | .vnone => .vlist []
  | v => v

/-- The per-generator work of `gather` (lines 706-730) applied to the
collected `final_u`: consume each listed generator and run the cleaning
loop on its items. -/
def gatherPieces (s : Stream) (finalU : Val) :
    List (List StreamOutput × List Val) :=
  (asGenList (noneToEmptyList finalU)).map (gatherInner s)

/-- Embeds `SingleOutputStream.gather` (lines 676-734): after a clean drain,
`final_u` is replaced by `[]` when it is `None` (lines 703-704); every
listed generator is consumed, inner `StreamOutput`s are re-yielded
non-final in order, and the list of lists of cleaned values is emitted
final under the `@gather` name. -/
def gather (s : Stream) : Stream :=
  let nextName := s.name ++ "@gather"
  ⟨.single, nextName, fun input =>
    let g := streamCall s input
    let steps := reyieldSingleSteps s .vnone g.items
    let finalU := (steps.map Prod.fst).getLastD .vnone
    let pieces := gatherPieces s finalU
    .ofOutputs (afterDrain ⟨steps.map Prod.snd, g.error⟩
      ⟨(pieces.map Prod.fst).flatten ++
        [output_wrap s
          (.raw (.vlist (pieces.map (fun p => Val.vlist p.2)))) none
          (some nextName)], none⟩)⟩

/-- Embeds `SingleOutputStream.on_error` (lines 736-762): like
`Stream.on_error` — including the dead `hasattr(next, "name")` check at
line 747 — except that the caught exception is *not* re-emitted as a
non-final output before the handler's output; the result is again a
`SingleOutputStream`. -/
def on_error (s : Stream) (handler : PyErr → CallResult) : Stream :=
  let nextName := s.name ++ "@on_error"
  ⟨.single, nextName, fun input =>
    let g := streamCall s input
    .ofOutputs (match g.error with
      | none => ⟨g.items, none⟩
      | some e =>
        if isExceptionInstance e then
          let handled := wrap s (handler e).toGen none (some nextName)
          ⟨g.items ++ handled.items, handled.error⟩
        else ⟨g.items, some e⟩)⟩

end SingleOutputStream

/-- Embeds `Stream.gather` (lines 447-480): `self.collect().gather()`; the
`collect` result is a `SingleOutputStream`, so the `gather` that runs is
the subclass's. -/
def Stream.gather (s : Stream) : Stream :=
  SingleOutputStream.gather (Stream.collect s)

/-- Embeds `as_async_generator(*values)`
(langstream/utils/async_generator.py lines 11-29, mirrored by
litechain/utils/async_generator.py): a finite generator over the given
values, in order, raising nothing. -/
def as_async_generator (values : List Val) : CallResult :=
  .agen ⟨values.map .raw, none⟩

/-- The final outputs of a run: data of the `final=True` emissions, in
order — what `collect_final_output` / `filter_final_output`
(langstream/utils/stream.py) extract. -/
def finalsOf (g : GenResult StreamOutput) : List Val :=
  (g.items.filter (fun o => o.final)).map (fun o => o.data)

/-! ## Python string operations used by the literal spec scenarios -/

/-- Helper for `pySplitSpace`: accumulate the current field (in
reverse) while scanning. -/
def splitSpaceAux : List Char → List Char → List String
  | acc, [] => [String.mk acc.reverse]
  | acc, c :: rest =>
    if c = ' ' then String.mk acc.reverse :: splitSpaceAux [] rest
    else splitSpaceAux (c :: acc) rest

/-- Python `s.split(" ")`: split on every single space, keeping empty
fields. -/
def pySplitSpace (s : String) : List String :=
  splitSpaceAux [] s.data

/-- Helper for `pyReplace`: fuel-driven scan replacing each
non-overlapping occurrence of `pat` (nonempty) left to right; the fuel
is the length of the scanned text, which each step consumes at least
one character of. -/
def replaceAux (pat repl : List Char) : Nat → List Char → List Char
  | _, [] => []
  | 0, l => l
  | fuel + 1, c :: rest =>
    if pat ≠ [] ∧ pat.isPrefixOf (c :: rest) then
      repl ++ replaceAux pat repl fuel ((c :: rest).drop pat.length)
    else
      c :: replaceAux pat repl fuel rest

/-- Python `s.replace(pat, repl)` for a nonempty pattern. -/
def pyReplace (s pat repl : String) : String :=
  String.mk (replaceAux pat.data repl.data s.data.length s.data)

/-- Python `w[0].upper()`: the first character, uppercased (the claims
only apply it to nonempty words). -/
def pyHeadUpper (s : String) : String :=
  match s.data with
  | [] => ""
  | c :: _ => String.mk [c.toUpper]

/-- The underlying string of a `Val` known to be a string. -/
def asString : Val → String
  | .vstr s => s
  | _ => ""

/-! ## Concrete stages from the spec's literal scenarios -/

/-- The stage `Stage("X", s → from_values(s, "!"))` from spec scenario 3. -/
def stageX : Stream :=
  ⟨.base, "X", fun v => as_async_generator [v, .vstr "!"]⟩

/-- The function `w → w.replace("world", "planet")` on string payloads. -/
def replaceWorld : Val → Val :=
  fun v => .vstr (pyReplace (asString v) "world" "planet")

/-- The function `w → w + "~"` on string payloads. -/
def appendTilde : Val → Val :=
  fun v => .vstr (asString v ++ "~")

/-- The composed stream of spec scenario 3:
`Stage("X", ...).map(replace).map(+"~")`. -/
def scenario3Stream : Stream :=
  Stream.map (Stream.map stageX replaceWorld) appendTilde

/-- The stage `Stage("Words", s → from_values(*s.split(" ")))` from spec
scenario 1. -/
def stageWords : Stream :=
  ⟨.base, "Words", fun v => as_async_generator ((pySplitSpace (asString v)).map .vstr)⟩

/-- The function `w → w[0].upper()` on string payloads. -/
def headUpper : Val → Val :=
  fun v => .vstr (pyHeadUpper (asString v))

/-- The composed stream of spec scenario 1:
`Stage("Words", ...).map(w → w[0].upper()).join("")`. -/
def scenario1Stream : Stream :=
  Stream.join (Stream.map stageWords headUpper) ""

/-- The non-final re-emission of an output: same producer and payload,
`final` forced to `False` (what `_output_wrap(u, final=False)` yields). -/
def demote (o : StreamOutput) : StreamOutput :=
  ⟨o.stream, o.data, false⟩

/-! ## General lemmas about the wrapping discipline -/

theorem output_wrap_ofOutput (s : Stream) (o : StreamOutput) :
    output_wrap s (.ofOutput o) none none = o := rfl

theorem output_wrap_demote (s : Stream) (o : StreamOutput) :
    output_wrap s (.ofOutput o) (some false) none = demote o := rfl

/-- Re-wrapping an already-wrapped run with no overrides is the
identity: composing streams does not disturb inner emissions. -/
theorem wrap_ofOutputs (s : Stream) (g : GenResult StreamOutput) :
    wrap s (CallResult.ofOutputs g).toGen none none = g := by
  cases g with
  | mk items error =>
    simp only [wrap, CallResult.ofOutputs, CallResult.toGen, List.map_map]
    congr 1
    induction items with
    | nil => rfl
    | cons u rest ih =>
      simp only [List.map_cons, ih]
      rfl

/-- Invoking a composed stream whose `_call` returns an already-wrapped
run reproduces that run. -/
theorem streamCall_mk (c : StreamClass) (n : String)
    (F : Val → GenResult StreamOutput) (input : Val) :
    streamCall ⟨c, n, fun i => .ofOutputs (F i)⟩ input = F input := by
  show wrap _ (CallResult.ofOutputs (F input)).toGen none none = F input
  exact wrap_ofOutputs _ _

/-- The re-emission half of `SingleOutputStream._reyield`: every pair's
second component is the source output demoted to non-final. -/
theorem reyieldSingleSteps_snd (s : Stream) (fv : Val)
    (items : List StreamOutput) :
    (reyieldSingleSteps s fv items).map Prod.snd = items.map demote := by
  induction items generalizing fv with
  | nil => rfl
  | cons u rest ih => simp [reyieldSingleSteps, ih, output_wrap_demote]

/-- The re-emission half of `Stream._reyield`: likewise. -/
theorem reyieldSteps_snd (s : Stream) (vals : List Val)
    (items : List StreamOutput) :
    (reyieldSteps s vals items).map Prod.snd = items.map demote := by
  induction items generalizing vals with
  | nil => rfl
  | cons u rest ih => simp [reyieldSteps, ih, output_wrap_demote]

/-- When the source run contains no final, the tracked
`final_value` of `SingleOutputStream._reyield` never moves. -/
theorem reyieldSingleSteps_fst_of_no_final (s : Stream) (fv : Val)
    (items : List StreamOutput) (h : ∀ o ∈ items, o.final = false) :
    ((reyieldSingleSteps s fv items).map Prod.fst).getLastD fv = fv := by
  induction items generalizing fv with
  | nil => rfl
  | cons u rest ih =>
    have hu : u.final = false := h u (by simp)
    simp only [reyieldSingleSteps, hu, if_false, List.map_cons, List.getLastD_cons]
    exact ih fv (fun o ho => h o (by simp [ho]))

/-- The tracked `final_value` after the whole run is the data of the
*last* final output (or the initial value when there is none): a second
final silently overwrites the first. -/
theorem reyieldSingleSteps_fst_last (s : Stream) (fv : Val)
    (items : List StreamOutput) :
    ((reyieldSingleSteps s fv items).map Prod.fst).getLastD fv =
      ((items.filter (fun o => o.final)).map (fun o => o.data)).getLastD fv := by
  induction items generalizing fv with
  | nil => rfl
  | cons u rest ih =>
    by_cases hu : u.final = true
    · simp only [reyieldSingleSteps, hu, if_true, List.map_cons,
        List.getLastD_cons, List.filter_cons_of_pos]
      exact ih u.data
    · have hu' : u.final = false := by simpa using hu
      simp only [reyieldSingleSteps, hu', if_false, List.map_cons,
        List.getLastD_cons, List.filter_cons, Bool.false_eq_true]
      exact ih fv

/-- The accumulator of `Stream._reyield` after the whole run: the
initial contents followed by the data of every final output, in
order. -/
theorem reyieldSteps_fst_last (s : Stream) (vals : List Val)
    (items : List StreamOutput) :
    ((reyieldSteps s vals items).map Prod.fst).getLastD vals =
      vals ++ (items.filter (fun o => o.final)).map (fun o => o.data) := by
  induction items generalizing vals with
  | nil => simp [reyieldSteps]
  | cons u rest ih =>
    by_cases hu : u.final = true
    · simp only [reyieldSteps, hu, if_true, List.map_cons, List.getLastD_cons,
        List.filter_cons_of_pos]
      rw [ih (vals ++ [u.data])]
      simp
    · have hu' : u.final = false := by simpa using hu
      simp only [reyieldSteps, hu', if_false, List.map_cons, List.getLastD_cons,
        List.filter_cons, Bool.false_eq_true]
      rw [ih vals]

/-- Demoted outputs contribute nothing to the final payloads. -/
theorem finalsOf_map_demote (items : List StreamOutput)
    (rest : List StreamOutput) (e : Option PyErr) :
    finalsOf ⟨items.map demote ++ rest, e⟩ = finalsOf ⟨rest, e⟩ := by
  simp only [finalsOf, List.filter_append]
  have : (items.map demote).filter (fun o => o.final) = [] := by
    induction items with
    | nil => rfl
    | cons u r ih => simp [demote, ih]
  simp [this]

/-- Lemma: `getLastD` commutes with `map` when the defaults correspond. -/
theorem getLastD_map {α β : Type} (f : α → β) (l : List α) (d : α) :
    (l.map f).getLastD (f d) = f (l.getLastD d) := by
  induction l generalizing d with
  | nil => rfl
  | cons x xs ih => simp only [List.map_cons, List.getLastD_cons]; exact ih x

/-- When the source run ends in a final output, the tracked
`final_value` after the whole run is that output's data, whatever the
initial and default values. -/
theorem reyieldSingleSteps_fst_append_final (s : Stream) (fv d : Val)
    (xs : List StreamOutput) (u : StreamOutput) (hu : u.final = true) :
    ((reyieldSingleSteps s fv (xs ++ [u])).map Prod.fst).getLastD d = u.data := by
  induction xs generalizing fv d with
  | nil => simp [reyieldSingleSteps, hu]
  | cons x rest ih =>
    simp only [List.cons_append, reyieldSingleSteps, List.map_cons,
      List.getLastD_cons]
    exact ih _ _

/-! ## Run equations for the embedded combinators -/

theorem singleMap_run (s : Stream) (fn : Val → Val) (input : Val) :
    streamCall (SingleOutputStream.map s fn) input =
      afterDrain
        ⟨(reyieldSingleSteps s .vnone (streamCall s input).items).map Prod.snd,
          (streamCall s input).error⟩
        ⟨[output_wrap s
            (.raw (fn (unwrap
              (((reyieldSingleSteps s .vnone (streamCall s input).items).map
                Prod.fst).getLastD .vnone)))) none (some (s.name ++ "@map"))],
          none⟩ :=
  streamCall_mk _ _ _ _

theorem singleAndThen_run (s : Stream) (nxt : NextArg) (input : Val) :
    streamCall (SingleOutputStream.and_then s nxt) input =
      afterDrain
        ⟨(reyieldSingleSteps s .vnone (streamCall s input).items).map Prod.snd,
          (streamCall s input).error⟩
        (wrap s
          (nxt.apply (unwrap
            (((reyieldSingleSteps s .vnone (streamCall s input).items).map
              Prod.fst).getLastD .vnone))).toGen none
          (some (nxt.resolveName (s.name ++ "@and_then")))) :=
  streamCall_mk _ _ _ _

theorem singlePipe_run (s : Stream) (fn : List Val → GenResult WrapItem)
    (input : Val) :
    streamCall (SingleOutputStream.pipe s fn) input =
      afterDrain
        ⟨(reyieldSingleSteps s .vnone (streamCall s input).items).map Prod.snd,
          (streamCall s input).error⟩
        (wrap s
          (fn [unwrap
            (((reyieldSingleSteps s .vnone (streamCall s input).items).map
              Prod.fst).getLastD .vnone)]) none (some (s.name ++ "@pipe"))) :=
  streamCall_mk _ _ _ _

theorem collect_run (s : Stream) (input : Val) :
    streamCall (Stream.collect s) input =
      afterDrain
        ⟨(reyieldDynSteps s (streamCall s input).items).map Prod.snd,
          (streamCall s input).error⟩
        ⟨[output_wrap s
            (.raw (((reyieldDynSteps s (streamCall s input).items).map
              Prod.fst).getLastD (.vlist []))) none (some (s.name ++ "@collect"))],
          none⟩ :=
  streamCall_mk _ _ _ _

theorem join_run (s : Stream) (separator : String) (input : Val) :
    streamCall (Stream.join s separator) input =
      afterDrain
        ⟨(reyieldDynSteps s (streamCall s input).items).map Prod.snd,
          (streamCall s input).error⟩
        ⟨[output_wrap s
            (.raw (.vstr (Stream.joinSep separator (Stream.strParts
              (((reyieldDynSteps s (streamCall s input).items).map
                Prod.fst).getLastD (.vlist [])))))) none (some (s.name ++ "@join"))],
          none⟩ :=
  streamCall_mk _ _ _ _

theorem gather_run (s : Stream) (input : Val) :
    streamCall (SingleOutputStream.gather s) input =
      afterDrain
        ⟨(reyieldSingleSteps s .vnone (streamCall s input).items).map Prod.snd,
          (streamCall s input).error⟩
        ⟨((SingleOutputStream.gatherPieces s
            (((reyieldSingleSteps s .vnone (streamCall s input).items).map
              Prod.fst).getLastD .vnone)).map Prod.fst).flatten ++
          [output_wrap s
            (.raw (.vlist ((SingleOutputStream.gatherPieces s
              (((reyieldSingleSteps s .vnone (streamCall s input).items).map
                Prod.fst).getLastD .vnone)).map
                (fun p => Val.vlist p.2)))) none (some (s.name ++ "@gather"))],
          none⟩ :=
  streamCall_mk _ _ _ _

theorem onError_run (s : Stream) (handler : PyErr → CallResult) (input : Val) :
    streamCall (Stream.on_error s handler) input =
      (match (streamCall s input).error with
        | none => ⟨(streamCall s input).items, none⟩
        | some e =>
          if isExceptionInstance e then
            ⟨(streamCall s input).items ++
              output_wrap s (.raw (.verr e)) (some false) none ::
                (wrap s (handler e).toGen none
                  (some (s.name ++ "@on_error"))).items,
              (wrap s (handler e).toGen none
                (some (s.name ++ "@on_error"))).error⟩
          else ⟨(streamCall s input).items, some e⟩) :=
  streamCall_mk _ _ _ _

theorem singleOnError_run (s : Stream) (handler : PyErr → CallResult)
    (input : Val) :
    streamCall (SingleOutputStream.on_error s handler) input =
      (match (streamCall s input).error with
        | none => ⟨(streamCall s input).items, none⟩
        | some e =>
          if isExceptionInstance e then
            ⟨(streamCall s input).items ++
              (wrap s (handler e).toGen none
                (some (s.name ++ "@on_error"))).items,
              (wrap s (handler e).toGen none
                (some (s.name ++ "@on_error"))).error⟩
          else ⟨(streamCall s input).items, some e⟩) :=
  streamCall_mk _ _ _ _

/-! ## Concrete fixture streams -/

/-- A `SingleOutputStream` whose producer ends without yielding
anything: no final value ever arrives. -/
def emptySingle : Stream :=
  ⟨.single, "E", fun _ => .agen ⟨[], none⟩⟩

/-- A `SingleOutputStream` whose producer emits *two* final outputs in
one invocation. -/
def twoFinalsStream : Stream :=
  ⟨.single, "S", fun _ => .agen
    ⟨[.out "S" (.vstr "a") true, .out "S" (.vstr "b") true], none⟩⟩

/-- A `SingleOutputStream` whose producer raises an ordinary
`Exception` before yielding anything. -/
def failingSingle : Stream :=
  ⟨.single, "F", fun _ => .agen ⟨[], some ⟨.exception, "boom"⟩⟩⟩

/-- A `Stream` whose producer raises an ordinary `Exception` before
yielding anything (spec scenario 6). -/
def failingBase : Stream :=
  ⟨.base, "G", fun _ => .agen ⟨[], some ⟨.exception, "teapot"⟩⟩⟩

/-- A `Stream` whose iteration is ended by `asyncio.CancelledError`
after one output. -/
def cancelledBase : Stream :=
  ⟨.base, "C", fun _ => .agen
    ⟨[.raw (.vstr "partial")], some ⟨.cancelled, "cancelled"⟩⟩⟩

/-- An `on_error` handler returning an apology string built from the
error message. -/
def sorryHandler : PyErr → CallResult :=
  fun e => .value (.vstr ("sorry: " ++ e.msg))

/-- A plain `Stream` named `"W"` yielding its input then `"!"`. -/
def streamW : Stream :=
  ⟨.base, "W", fun v => as_async_generator [v, .vstr "!"]⟩

/-- A plain `Stream` named `"A"` (base of the naming counterexample). -/
def streamA : Stream :=
  ⟨.base, "A", fun v => .value v⟩

/-- A plain `Stream` named `"B"` (the named argument of the naming
counterexample). -/
def streamB : Stream :=
  ⟨.base, "B", fun v => .value v⟩

/-! ## Claims -/

/-- Claim C9: A `Stream` whose `call` returns a bare value `v` (neither
kind of async generator) emits, on any input, exactly the one output
`StreamOutput(stream=name, data=v, final=True)`. -/
theorem bare_value_call_single_final_emission (c : StreamClass) (nm : String)
    (f : Val → Val) (input : Val) :
    streamCall ⟨c, nm, fun i => .value (f i)⟩ input =
      ⟨[⟨nm, f input, true⟩], none⟩ := rfl

/-- Claim C6: `Stage("X", s → from_values(s, "!")).map(w →
w.replace("world", "planet")).map(w → w + "~")` applied to
`"hello world"`: the full run is exactly the six emissions below — the
final outputs are `"hello planet~"` then `"!~"` in that order, and each
of the first map's images is re-emitted non-final immediately before
its second-mapped image. -/
theorem scenario3_run_exact :
    streamCall scenario3Stream (.vstr "hello world") =
      ⟨[⟨"X", .vstr "hello world", false⟩,
        ⟨"X@map", .vstr "hello planet", false⟩,
        ⟨"X@map@map", .vstr "hello planet~", true⟩,
        ⟨"X", .vstr "!", false⟩,
        ⟨"X@map", .vstr "!", false⟩,
        ⟨"X@map@map", .vstr "!~", true⟩], none⟩ ∧
    finalsOf (streamCall scenario3Stream (.vstr "hello world")) =
      [.vstr "hello planet~", .vstr "!~"] :=
  ⟨rfl, rfl⟩

/-- Claim C7: `Stage("Words", s → from_values(*s.split(" "))).map(w →
w[0].upper()).join("")` applied to `"as soon as possible"` produces the
single final output `"ASAP"`. -/
theorem scenario1_acronym :
    finalsOf (streamCall scenario1Stream (.vstr "as soon as possible")) =
      [.vstr "ASAP"] := rfl

/-- Claim C4, counterexample: The claim says `S.pipe(g)` adopts the name
of a named argument `g` verbatim; but `"A".pipe` names its result
`"A@pipe"` whatever the argument — `Stream.pipe` has no adoption check
and `SingleOutputStream.pipe`'s check inspects the Python builtin
`next` instead of its parameter. -/
theorem pipe_does_not_adopt_name_counterexample :
    Stream.pipeName streamA (.stage streamB) ≠ streamB.name ∧
    SingleOutputStream.pipeName streamA (.stage streamB) ≠ streamB.name :=
  ⟨by decide, by decide⟩

/-- Claim C4, amended: `and_then` (on both classes) adopts a named
argument's name verbatim and falls back to `S.name + "@and_then"` for a
plain function; `pipe` (on both classes) always names its result
`S.name + "@pipe"`, never adopting the argument's name. -/
theorem and_then_adopts_name_pipe_does_not (s g : Stream)
    (f : Val → CallResult) (arg arg2 : NextArg)
    (fn : List Val → GenResult WrapItem) :
    (Stream.and_then s (.stage g)).name = g.name ∧
    (SingleOutputStream.and_then s (.stage g)).name = g.name ∧
    (Stream.and_then s (.func f)).name = s.name ++ "@and_then" ∧
    (SingleOutputStream.and_then s (.func f)).name = s.name ++ "@and_then" ∧
    Stream.pipeName s arg = s.name ++ "@pipe" ∧
    SingleOutputStream.pipeName s arg2 = s.name ++ "@pipe" ∧
    (SingleOutputStream.pipe s fn).name = s.name ++ "@pipe" :=
  ⟨rfl, rfl, rfl, rfl, rfl, rfl, rfl⟩

/-- Claim C1, counterexample: The claim says `map` on a
`SingleOutputStream` with no final fails with `EmptyOutput`; instead
the run completes without error and the mapped function receives `None`
(here `fun v => .vlist [v]` wraps what it received, exhibiting the
`None`). No `EmptyOutput` error exists in the source. -/
theorem empty_single_map_passes_none_counterexample :
    streamCall (SingleOutputStream.map emptySingle (fun v => .vlist [v]))
        (.vstr "in") =
      ⟨[⟨"E@map", .vlist [.vnone], true⟩], none⟩ := rfl

/-- Claim C1, amended: On a `SingleOutputStream` whose run ends cleanly
without any final output, `map`, `and_then` and `pipe` do not fail:
`unwrap` is an identity cast, so the successor receives Python's `None`
— `map`'s function and `and_then`'s function are called on `None`, and
`pipe`'s function on the one-element generator containing `None`. -/
theorem empty_single_passes_none_to_successor (s : Stream) (input : Val)
    (fn fv : Val → Val) (fnp : List Val → GenResult WrapItem)
    (herr : (streamCall s input).error = none)
    (hnf : ∀ o ∈ (streamCall s input).items, o.final = false) :
    streamCall (SingleOutputStream.map s fn) input =
      ⟨(streamCall s input).items.map demote ++
        [⟨s.name ++ "@map", fn .vnone, true⟩], none⟩ ∧
    streamCall (SingleOutputStream.and_then s
        (.func fun u => .value (fv u))) input =
      ⟨(streamCall s input).items.map demote ++
        [⟨s.name ++ "@and_then", fv .vnone, true⟩], none⟩ ∧
    streamCall (SingleOutputStream.pipe s fnp) input =
      ⟨(streamCall s input).items.map demote ++
        (wrap s (fnp [.vnone]) none (some (s.name ++ "@pipe"))).items,
        (fnp [.vnone]).error⟩ := by
  have hsnd := reyieldSingleSteps_snd s .vnone (streamCall s input).items
  have hfst := reyieldSingleSteps_fst_of_no_final s .vnone
    (streamCall s input).items hnf
  refine ⟨?_, ?_, ?_⟩
  · rw [singleMap_run, hsnd, hfst, herr]
    rfl
  · rw [singleAndThen_run, hsnd, hfst, herr]
    rfl
  · rw [singlePipe_run, hsnd, hfst, herr]
    simp [afterDrain, wrap, unwrap]

/-- Claim C1, witness: The amended behaviour at the concrete empty
single-output stream. -/
theorem empty_single_passes_none_witness :
    streamCall (SingleOutputStream.map emptySingle unwrap) (.vstr "go") =
      ⟨(streamCall emptySingle (.vstr "go")).items.map demote ++
        [⟨"E" ++ "@map", Val.vnone, true⟩], none⟩ :=
  (empty_single_passes_none_to_successor emptySingle (.vstr "go") unwrap unwrap
    (fun _ => ⟨[], none⟩) rfl (by intro o ho; simp [streamCall, emptySingle,
      wrap, CallResult.toGen] at ho)).1

/-- Claim C2, counterexample: A `SingleOutputStream` whose producer
yields two finals in one invocation: both finals are delivered and the
downstream `map` completes without any error — no `InvariantViolation`
is raised (no such error exists in the source); the last final's data
(`"b"`) is the one kept. -/
theorem two_finals_kept_silently_counterexample :
    streamCall twoFinalsStream (.vstr "x") =
      ⟨[⟨"S", .vstr "a", true⟩, ⟨"S", .vstr "b", true⟩], none⟩ ∧
    streamCall (SingleOutputStream.map twoFinalsStream unwrap) (.vstr "x") =
      ⟨[⟨"S", .vstr "a", false⟩, ⟨"S", .vstr "b", false⟩,
        ⟨"S@map", .vstr "b", true⟩], none⟩ :=
  ⟨rfl, rfl⟩

/-- Claim C2, amended: A `SingleOutputStream` may emit any number of
finals per invocation; `SingleOutputStream._reyield` silently keeps the
data of the *last* final (or `None` when there is none) and no error is
ever raised for a duplicate final: downstream `map` completes cleanly
with the last final's image. -/
theorem single_keeps_last_final_silently (s : Stream) (fn : Val → Val)
    (input : Val) (herr : (streamCall s input).error = none) :
    streamCall (SingleOutputStream.map s fn) input =
      ⟨(streamCall s input).items.map demote ++
        [⟨s.name ++ "@map",
          fn ((finalsOf (streamCall s input)).getLastD .vnone), true⟩],
        none⟩ := by
  have hsnd := reyieldSingleSteps_snd s .vnone (streamCall s input).items
  have hfst := reyieldSingleSteps_fst_last s .vnone (streamCall s input).items
  rw [singleMap_run, hsnd, hfst, herr]
  rfl

/-- Claim C2, witness: The amended behaviour at the concrete two-final
stream: the kept value is `"b"`, the second final. -/
theorem single_keeps_last_final_witness :
    streamCall (SingleOutputStream.map twoFinalsStream unwrap) (.vstr "x") =
      ⟨(streamCall twoFinalsStream (.vstr "x")).items.map demote ++
        [⟨"S" ++ "@map",
          unwrap ((finalsOf (streamCall twoFinalsStream (.vstr "x"))).getLastD
            .vnone), true⟩], none⟩ :=
  single_keeps_last_final_silently twoFinalsStream unwrap (.vstr "x") rfl

/-- Claim C3, counterexample: On a failing `SingleOutputStream`,
`on_error` emits the handler's output only: the whole run is the single
final handler emission, with no preceding non-final emission carrying
the error as data (contrast `Stream.on_error`, which emits one).  This
matches the repository's own test of `SingleOutputStream.on_error`. -/
theorem single_on_error_no_error_emission_counterexample :
    streamCall (SingleOutputStream.on_error failingSingle sorryHandler)
        (.vstr "x") =
      ⟨[⟨"F@on_error", .vstr "sorry: boom", true⟩], none⟩ := rfl

/-- Claim C3, amended: When the protected producer raises an `Exception`
`e`: a base `Stream`'s `on_error` first re-emits the already-produced
outputs, then the non-final tracing emission `⟨S.name, e, false⟩`, then
the handler's wrapped outputs under `S.name + "@on_error"`; a
`SingleOutputStream`'s `on_error` emits the same run *without* the
tracing emission. -/
theorem on_error_emissions (s : Stream) (handler : PyErr → CallResult)
    (input : Val) (e : PyErr)
    (herr : (streamCall s input).error = some e)
    (hexc : isExceptionInstance e = true) :
    streamCall (Stream.on_error s handler) input =
      ⟨(streamCall s input).items ++
        ⟨s.name, .verr e, false⟩ ::
          (wrap s (handler e).toGen none (some (s.name ++ "@on_error"))).items,
        (wrap s (handler e).toGen none (some (s.name ++ "@on_error"))).error⟩ ∧
    streamCall (SingleOutputStream.on_error s handler) input =
      ⟨(streamCall s input).items ++
        (wrap s (handler e).toGen none (some (s.name ++ "@on_error"))).items,
        (wrap s (handler e).toGen none (some (s.name ++ "@on_error"))).error⟩ := by
  constructor
  · rw [onError_run, herr]
    simp [hexc, output_wrap]
  · rw [singleOnError_run, herr]
    simp [hexc]

/-- Claim C3, witness: The amended behaviour at the concrete failing
base stream (spec scenario 6): the tracing emission then the final
apology. -/
theorem on_error_emissions_witness :
    streamCall (Stream.on_error failingBase sorryHandler) (.vstr "418") =
      ⟨(streamCall failingBase (.vstr "418")).items ++
        ⟨"G", .verr ⟨.exception, "teapot"⟩, false⟩ ::
          (wrap failingBase (sorryHandler ⟨.exception, "teapot"⟩).toGen none
            (some ("G" ++ "@on_error"))).items,
        (wrap failingBase (sorryHandler ⟨.exception, "teapot"⟩).toGen none
          (some ("G" ++ "@on_error"))).error⟩ :=
  (on_error_emissions failingBase sorryHandler (.vstr "418")
    ⟨.exception, "teapot"⟩ rfl rfl).1

/-- Claim C10: A failure that is not an `Exception` instance —
cancellation derives from `BaseException` only — is not caught by
`on_error` on either class: the run keeps the already-produced outputs
and propagates the failure unchanged, and the result does not depend on
the handler (so the handler is never invoked). -/
theorem on_error_only_catches_exception_instances (s : Stream)
    (handler handler2 : PyErr → CallResult) (input : Val) (e : PyErr)
    (herr : (streamCall s input).error = some e)
    (hnot : isExceptionInstance e = false) :
    streamCall (Stream.on_error s handler) input =
      ⟨(streamCall s input).items, some e⟩ ∧
    streamCall (SingleOutputStream.on_error s handler2) input =
      ⟨(streamCall s input).items, some e⟩ := by
  constructor
  · rw [onError_run, herr]
    simp [hnot]
  · rw [singleOnError_run, herr]
    simp [hnot]

/-- Claim C10, witness: At the concrete cancelled stream: the partial
output is kept, the cancellation propagates, the handler is skipped. -/
theorem on_error_cancellation_witness :
    streamCall (Stream.on_error cancelledBase sorryHandler) (.vstr "x") =
      ⟨(streamCall cancelledBase (.vstr "x")).items,
        some ⟨.cancelled, "cancelled"⟩⟩ :=
  (on_error_only_catches_exception_instances cancelledBase sorryHandler
    sorryHandler (.vstr "x") ⟨.cancelled, "cancelled"⟩ rfl rfl).1

/-- Claim C8: `gather` on a `SingleOutputStream` whose run ends cleanly
with no final value: `final_u` is still `None`, is replaced by `[]`,
and the run completes without failing, emitting the empty list as its
sole final output. -/
theorem gather_on_empty_yields_empty_list (s : Stream) (input : Val)
    (herr : (streamCall s input).error = none)
    (hnf : ∀ o ∈ (streamCall s input).items, o.final = false) :
    streamCall (SingleOutputStream.gather s) input =
      ⟨(streamCall s input).items.map demote ++
        [⟨s.name ++ "@gather", .vlist [], true⟩], none⟩ ∧
    finalsOf (streamCall (SingleOutputStream.gather s) input) =
      [.vlist []] := by
  have hsnd := reyieldSingleSteps_snd s .vnone (streamCall s input).items
  have hfst := reyieldSingleSteps_fst_of_no_final s .vnone
    (streamCall s input).items hnf
  have hrun : streamCall (SingleOutputStream.gather s) input =
      ⟨(streamCall s input).items.map demote ++
        [⟨s.name ++ "@gather", .vlist [], true⟩], none⟩ := by
    rw [gather_run, hsnd, hfst, herr]
    rfl
  refine ⟨hrun, ?_⟩
  rw [hrun, finalsOf_map_demote]
  rfl

/-- Claim C8, witness: At the concrete empty single-output stream. -/
theorem gather_on_empty_witness :
    streamCall (SingleOutputStream.gather emptySingle) (.vstr "go") =
      ⟨(streamCall emptySingle (.vstr "go")).items.map demote ++
        [⟨"E" ++ "@gather", .vlist [], true⟩], none⟩ :=
  (gather_on_empty_yields_empty_list emptySingle (.vstr "go") rfl
    (by intro o ho; simp [streamCall, emptySingle, wrap,
      CallResult.toGen] at ho)).1

/-- The run of `collect` on a base-class receiver that drains cleanly:
all source outputs re-emitted non-final, then the list of the source's
final payloads emitted as the sole final under `@collect`. -/
theorem collect_run_base (s : Stream) (input : Val) (hcls : s.cls = .base)
    (herr : (streamCall s input).error = none) :
    streamCall (Stream.collect s) input =
      ⟨(streamCall s input).items.map demote ++
        [⟨s.name ++ "@collect", .vlist (finalsOf (streamCall s input)), true⟩],
        none⟩ := by
  have hdyn : reyieldDynSteps s (streamCall s input).items =
      (reyieldSteps s [] (streamCall s input).items).map
        (fun p => (Val.vlist p.1, p.2)) := by
    unfold reyieldDynSteps
    rw [hcls]
  have hsnd : (reyieldDynSteps s (streamCall s input).items).map Prod.snd =
      (streamCall s input).items.map demote := by
    rw [hdyn, List.map_map]
    exact reyieldSteps_snd s [] (streamCall s input).items
  have hfst : ((reyieldDynSteps s (streamCall s input).items).map
      Prod.fst).getLastD (.vlist []) =
      .vlist (finalsOf (streamCall s input)) := by
    rw [hdyn, List.map_map]
    have key := getLastD_map Val.vlist
      ((reyieldSteps s [] (streamCall s input).items).map Prod.fst) []
    rw [List.map_map, reyieldSteps_fst_last] at key
    simp only [List.nil_append] at key
    exact key
  rw [collect_run, hsnd, hfst, herr]
  rfl

/-- A `SingleOutputStream` whose bare-value producer yields the single
final `"a"` on any input (source of the double-collect
counterexample). -/
def singleValueA : Stream :=
  ⟨.single, "SA", fun _ => .value (.vstr "a")⟩

/-- Claim C5, counterexample: For the `SingleOutputStream` source
`singleValueA` — with exactly one final, `"a"` — the finals of
`S.collect().collect()` are `["a"]`, not the claimed `[["a"]]`: with a
single-class receiver, `Stream.collect` binds `iter_u` to the scalar
`final_value` produced by the overridden `_reyield`, so both collects
pass the bare value through and nothing is ever wrapped in a list. -/
theorem collect_twice_single_source_counterexample :
    finalsOf (streamCall (Stream.collect (Stream.collect singleValueA))
        (.vstr "x")) = [.vstr "a"] ∧
    finalsOf (streamCall (Stream.collect (Stream.collect singleValueA))
        (.vstr "x")) ≠
      [.vlist (finalsOf (streamCall singleValueA (.vstr "x")))] := by
  refine ⟨rfl, ?_⟩
  intro h
  rw [show finalsOf (streamCall (Stream.collect (Stream.collect singleValueA))
      (.vstr "x")) = [.vstr "a"] from rfl] at h
  injection h with h1 _
  exact Val.noConfusion h1

/-- Claim C5, amended: For a base-class `Stream` `S` whose run drains
cleanly, `S.collect().collect()` yields finals `[[… finals of S …]]`:
its one final output carries the list of `S`'s final payloads — the
same finals `S.collect()` alone yields (the inner final value is *not*
wrapped in a further list, because the outer `collect` dispatches to
`SingleOutputStream._reyield`, which tracks the single final value
rather than accumulating a list).  For a `SingleOutputStream` source
the property fails, per the counterexample. -/
theorem collect_twice_singly_nested (s : Stream) (input : Val)
    (hcls : s.cls = .base)
    (herr : (streamCall s input).error = none) :
    finalsOf (streamCall (Stream.collect (Stream.collect s)) input) =
      [.vlist (finalsOf (streamCall s input))] ∧
    finalsOf (streamCall (Stream.collect s) input) =
      [.vlist (finalsOf (streamCall s input))] := by
  have hC := collect_run_base s input hcls herr
  have hCfin : finalsOf (streamCall (Stream.collect s) input) =
      [.vlist (finalsOf (streamCall s input))] := by
    rw [hC, finalsOf_map_demote]
    rfl
  refine ⟨?_, hCfin⟩
  have herrC : (streamCall (Stream.collect s) input).error = none := by
    rw [hC]
  have hdynD : reyieldDynSteps (Stream.collect s)
      (streamCall (Stream.collect s) input).items =
      reyieldSingleSteps (Stream.collect s) .vnone
        (streamCall (Stream.collect s) input).items := rfl
  have hsndD : (reyieldSingleSteps (Stream.collect s) Val.vnone
      (streamCall (Stream.collect s) input).items).map Prod.snd =
      (streamCall (Stream.collect s) input).items.map demote :=
    reyieldSingleSteps_snd _ _ _
  have hfstD : ((reyieldSingleSteps (Stream.collect s) Val.vnone
      (streamCall (Stream.collect s) input).items).map Prod.fst).getLastD
        (.vlist []) = .vlist (finalsOf (streamCall s input)) := by
    rw [hC]
    exact reyieldSingleSteps_fst_append_final (Stream.collect s) .vnone
      (.vlist []) ((streamCall s input).items.map demote)
      ⟨s.name ++ "@collect", .vlist (finalsOf (streamCall s input)), true⟩ rfl
  rw [collect_run, hdynD, hsndD, hfstD, herrC]
  simp only [afterDrain]
  rw [finalsOf_map_demote]
  rfl

/-- Claim C5, witness: At the concrete stream `"W"` on input `"Hi"`: both
`collect` and the double `collect` yield finals `[["Hi", "!"]]`. -/
theorem collect_twice_witness :
    finalsOf (streamCall (Stream.collect (Stream.collect streamW))
        (.vstr "Hi")) =
      [.vlist (finalsOf (streamCall streamW (.vstr "Hi")))] :=
  (collect_twice_singly_nested streamW (.vstr "Hi") rfl rfl).1

end Langstream
